import Mathlib

/-!
Shallow embedding of the covert command/response channel
(`common.py`, `bot.py`, `controller.py`) and verification of its
specification claims.

Modelling conventions:
* Python strings that carry message text are modelled at the byte level
  (`List Nat`, each element `< 256`); `str.encode('utf-8')` and
  `bytes.decode('utf-8')` are modelled for the ASCII range, where UTF-8 is
  the identity on code points (`asciiDecode` rejects bytes `≥ 128`, the
  conservative abstraction of the non-ASCII corner).
* Python `dict`s are modelled as association lists with first-match lookup;
  the construction sites only ever produce duplicate-free key lists, so the
  dict semantics coincide.
* The JSON wire layer (`json.dumps` / `json.loads`) is treated as a faithful
  bijection between a dict and its serialized form: functions that consume a
  JSON string take the parsed object, and a payload that fails `json.loads`
  is represented by `Option.none` at the call boundary.
* `random.randint(7, 20)` is modelled by a stream `Nat → Fin 14`, the k-th
  draw giving chunk size `7 + (sizes k).val ∈ [7, 20]`, exactly the support
  of the Python call.
-/

/-- Generic first-match association-list lookup (Python `dict[k]` /
`k in dict`). -/
def alookup {α β : Type} [DecidableEq α] : List (α × β) → α → Option β
  | [], _ => none
  | (k, v) :: rest, key => if k = key then some v else alookup rest key

/-- Python `str.upper()` restricted to ASCII (all table values are ASCII). -/
def strUpper (s : String) : String :=
  String.mk (s.data.map Char.toUpper)

/-- UTF-8 encoding of an ASCII string: the list of code points. -/
def strBytes (s : String) : List Nat :=
  s.data.map Char.toNat

/-- `bytes.decode('utf-8')` restricted to ASCII bytes; non-ASCII bytes are
conservatively treated as a decode failure. -/
def asciiDecode (bs : List Nat) : Option (List Char) :=
  if bs.all (fun b => b < 128) then some (bs.map Char.ofNat) else none

/-! ## Constant tables of `common.py` -/

/-- `common.py` commands (`CMD_LIST_BOTS` … `CMD_EXECUTE_BINARY`). -/
def CMD_LIST_BOTS : Nat := 1

/-- `CMD_LIST_USERS = 2`. -/
def CMD_LIST_USERS : Nat := 2

/-- `CMD_LIST_DIR = 3`. -/
def CMD_LIST_DIR : Nat := 3

/-- `CMD_GET_USER_ID = 4`. -/
def CMD_GET_USER_ID : Nat := 4

/-- `CMD_DOWNLOAD_FILE = 5`. -/
def CMD_DOWNLOAD_FILE : Nat := 5

/-- `CMD_EXECUTE_BINARY = 6`. -/
def CMD_EXECUTE_BINARY : Nat := 6

/-- `common.py` `COMMAND_TO_TIMEZONE`. -/
def COMMAND_TO_TIMEZONE : List (Nat × String) :=
  [(CMD_LIST_BOTS, "America/New_York"),
   (CMD_LIST_USERS, "America/Los_Angeles"),
   (CMD_LIST_DIR, "America/Chicago"),
   (CMD_GET_USER_ID, "Europe/London"),
   (CMD_DOWNLOAD_FILE, "Europe/Paris"),
   (CMD_EXECUTE_BINARY, "Europe/Berlin")]

/-- `TIMEZONE_TO_ACTION = {v.upper(): k for k, v in COMMAND_TO_TIMEZONE.items()}`.
A Python dict comprehension lets later entries overwrite earlier ones, so the
first-match lookup is performed on the reversed pair list. -/
def TIMEZONE_TO_ACTION : List (String × Nat) :=
  (COMMAND_TO_TIMEZONE.map (fun p => (strUpper p.2, p.1))).reverse

/-- `common.py` `CHAR_TO_TIMEZONE` (67 entries; all Python keys are 1-character
strings, modelled as `Char`). -/
def CHAR_TO_TIMEZONE : List (Char × String) :=
  [('a', "America/Argentina/Buenos_Aires"),
   ('b', "America/Sao_Paulo"),
   ('c', "America/Toronto"),
   ('d', "Europe/Dublin"),
   ('e', "Europe/Madrid"),
   ('f', "Europe/Paris"),
   ('g', "Europe/Athens"),
   ('h', "Europe/Helsinki"),
   ('i', "Asia/Jerusalem"),
   ('j', "Asia/Kolkata"),
   ('k', "Asia/Kathmandu"),
   ('l', "America/Lima"),
   ('m', "Europe/Moscow"),
   ('n', "America/Denver"),
   ('o', "Australia/Sydney"),
   ('p', "America/Phoenix"),
   ('q', "America/Montevideo"),
   ('r', "America/Recife"),
   ('s', "America/Santiago"),
   ('t', "America/Taipei"),
   ('u', "Australia/Perth"),
   ('v', "America/Vancouver"),
   ('w', "America/Winnipeg"),
   ('x', "Asia/Ho_Chi_Minh"),
   ('y', "Asia/Yekaterinburg"),
   ('z', "Europe/Stockholm"),
   ('A', "America/Anchorage"),
   ('B', "Europe/Berlin"),
   ('C', "America/Chicago"),
   ('D', "Asia/Dubai"),
   ('E', "Europe/Edinburgh"),
   ('F', "America/Fortaleza"),
   ('G', "Europe/Gibraltar"),
   ('H', "Pacific/Honolulu"),
   ('I', "Asia/Istanbul"),
   ('J', "Asia/Jakarta"),
   ('K', "Europe/Kiev"),
   ('L', "Europe/London"),
   ('M', "America/Mexico_City"),
   ('N', "America/New_York"),
   ('O', "Europe/Oslo"),
   ('P', "Europe/Prague"),
   ('Q', "America/Quebec"),
   ('R', "Europe/Rome"),
   ('S', "Asia/Shanghai"),
   ('T', "Asia/Tokyo"),
   ('U', "Asia/Ulaanbaatar"),
   ('V', "Europe/Vienna"),
   ('W', "Europe/Warsaw"),
   ('X', "America/Cancun"),
   ('Y', "America/Yakutat"),
   ('Z', "Europe/Zurich"),
   (',', "Africa/Johannesburg"),
   (' ', "Africa/Lagos"),
   ('.', "Africa/Kenya"),
   ('/', "America/Los_Angeles"),
   ('~', "Europe/Tallinn"),
   ('0', "UTC"),
   ('1', "Africa/Casablanca"),
   ('2', "Africa/Cairo"),
   ('3', "Africa/Nairobi"),
   ('4', "Asia/Baku"),
   ('5', "Asia/Karachi"),
   ('6', "Asia/Dhaka"),
   ('7', "Asia/Bangkok"),
   ('8', "Asia/Singapore"),
   ('9', "Asia/Seoul")]

/-- `TIMEZONE_TO_CHAR = {v.upper(): k for k, v in CHAR_TO_TIMEZONE.items()}`
(reversed for the overwrite semantics of a comprehension). -/
def TIMEZONE_TO_CHAR : List (String × Char) :=
  (CHAR_TO_TIMEZONE.map (fun p => (strUpper p.2, p.1))).reverse

/-- `list(CHAR_TO_TIMEZONE.values())` — the fixed ordered token list used by
the chunk-distribution codec in `common.py`. -/
def commonTimezones : List String :=
  CHAR_TO_TIMEZONE.map Prod.snd

/-! ## Base64 (`base64.b64encode` / `base64.b64decode`) -/

/-- The base64 alphabet. -/
def b64chars : List Char :=
  "ABCDEFGHIJKLMNOPQRSTUVWXYZabcdefghijklmnopqrstuvwxyz0123456789+/".data

/-- Index of a character in the base64 alphabet. -/
def b64index (c : Char) : Option Nat :=
  b64chars.findIdx? (fun x => x = c)

/-- `base64.b64encode` on a byte list, producing the printable encoded
characters (with `=` padding). -/
def b64encode : List Nat → List Char
  | a :: b :: c :: rest =>
      let n := a * 65536 + b * 256 + c
      b64chars.getD (n / 262144) 'A' :: b64chars.getD (n / 4096 % 64) 'A' ::
        b64chars.getD (n / 64 % 64) 'A' :: b64chars.getD (n % 64) 'A' ::
        b64encode rest
  | [a, b] =>
      let n := a * 1024 + b * 4
      [b64chars.getD (n / 4096) 'A', b64chars.getD (n / 64 % 64) 'A',
       b64chars.getD (n % 64) 'A', '=']
  | [a] =>
      let n := a * 16
      [b64chars.getD (n / 64) 'A', b64chars.getD (n % 64) 'A', '=', '=']
  | [] => []

/-- Group decoding step of `base64.b64decode`: processes the (already
filtered) characters four at a time; a trailing group of 1–3 characters is
the `binascii` "incorrect padding" error (`none`). -/
def decodeGroups : List Char → Option (List Nat)
  | [] => some []
  | c1 :: c2 :: c3 :: c4 :: rest =>
      match b64index c1, b64index c2 with
      | some i1, some i2 =>
          if c3 = '=' then
            if c4 = '=' ∧ rest = [] then some [i1 * 4 + i2 / 16] else none
          else
            match b64index c3 with
            | some i3 =>
                if c4 = '=' then
                  if rest = [] then
                    some [i1 * 4 + i2 / 16, i2 % 16 * 16 + i3 / 4]
                  else none
                else
                  match b64index c4 with
                  | some i4 =>
                      (decodeGroups rest).map
                        (fun bs => (i1 * 4 + i2 / 16) ::
                          (i2 % 16 * 16 + i3 / 4) :: (i3 % 4 * 64 + i4) :: bs)
                  | none => none
            | none => none
      | _, _ => none
  | _ => none

/-- `base64.b64decode` (with the default `validate=False`, which first
discards characters outside the alphabet / padding). -/
def b64decode (cs : List Char) : Option (List Nat) :=
  decodeGroups (cs.filter (fun c => (b64index c).isSome || c = '='))

/-! ## Chunk-distribution codec (`encrypt` / `decrypt` in `common.py`,
`do_very_strange_encryption` / `do_very_strange_decryption` in `bot.py`;
both are the same code over a different timezone list). -/

/-- A parsed `timezone → list of fragments` JSON object (the value
`encrypt` serializes and `decrypt` parses). -/
def TzMap : Type := List (String × List (List Char))

instance : DecidableEq TzMap := by
  unfold TzMap; infer_instance

/-- The `while i < len(encoded)` splitting loop of `encrypt`: cuts the encoded
string into chunks of `7 + (sizes k).val ∈ [7, 20]` characters (the successive
draws of `random.randint(7, 20)`).  The fuel is the string length, which the
adequacy lemma shows is never exhausted. -/
def splitChunksF : Nat → (Nat → Fin 14) → Nat → List Char → List (List Char)
  | 0, _, _, _ => []
  | fuel + 1, sizes, k, s =>
      if s = [] then []
      else
        s.take (7 + (sizes k).val) ::
          splitChunksF fuel sizes (k + 1) (s.drop (7 + (sizes k).val))

/-- `dict.setdefault`-style append used by `encrypt`'s distribution loop:
`result[timezone].append(chunk)`, creating the key on first use. -/
def dictAppend : TzMap → String → List Char → TzMap
  | [], key, v => [(key, [v])]
  | (k, vs) :: rest, key, v =>
      if k = key then (k, vs ++ [v]) :: rest
      else (k, vs) :: dictAppend rest key v

/-- The `for idx, chunk in enumerate(chunks)` distribution loop of `encrypt`:
chunk `idx` goes to `timezones[idx % len(timezones)]`. -/
def distributeGo (T : List String) : TzMap → Nat → List (List Char) → TzMap
  | acc, _, [] => acc
  | acc, idx, c :: rest =>
      distributeGo T (dictAppend acc (T.getD (idx % T.length) "") c) (idx + 1) rest

/-- Distribution of all chunks over the token list, starting from the empty
dict at index 0. -/
def distribute (T : List String) (chunks : List (List Char)) : TzMap :=
  distributeGo T [] 0 chunks

/-- `encrypt` over a given token list: base64-encode, split into random-sized
chunks, distribute round-robin.  (`json.dumps` of the resulting dict is the
identity abstraction of the wire layer.) -/
def encryptWith (T : List String) (sizes : Nat → Fin 14) (bs : List Nat) : TzMap :=
  let encoded := b64encode bs
  distribute T (splitChunksF encoded.length sizes 0 encoded)

/-- `chunk_counts` lookup (the dict is initialized with every token of the
list, so the default is never used on the code's own keys). -/
def clookup (counts : List (String × Nat)) (tz : String) : Nat :=
  (alookup counts tz).getD 0

/-- `chunk_counts[current_tz] += 1`. -/
def cbump (counts : List (String × Nat)) (tz : String) : List (String × Nat) :=
  counts.map (fun p => if p.1 = tz then (p.1, p.2 + 1) else p)

/-- The `all_collected` generator expression of `decrypt`:
`all(tz not in data or chunk_counts[tz] == len(data[tz]) for tz in timezones)`. -/
def allCollected (data : TzMap) (T : List String) (counts : List (String × Nat)) : Bool :=
  T.all (fun tz =>
    match alookup data tz with
    | none => true
    | some frags => clookup counts tz = frags.length)

/-- The `while True` reconstruction loop of `decrypt`, fueled.  Each iteration
mirrors the Python body exactly: consume the next fragment of
`timezones[timezone_idx % len(timezones)]` if one remains, otherwise break
when `all_collected`; in either branch, break when the incremented
`timezone_idx` exceeds the `10000` safety ceiling.  The `Bool` of the result
records whether the loop exited through the safety check; `none` means the
fuel ran out before the loop broke (shown impossible for fuel `10002`). -/
def decryptLoopF (data : TzMap) (T : List String) :
    Nat → List (String × Nat) → Nat → List (List Char) →
    Option (List (List Char) × Bool)
  | 0, _, _, _ => none
  | fuel + 1, counts, idx, acc =>
      let current := T.getD (idx % T.length) ""
      match alookup data current with
      | some frags =>
          if clookup counts current < frags.length then
            let acc' := acc ++ [frags.getD (clookup counts current) []]
            let counts' := cbump counts current
            if idx + 1 > 10000 then some (acc', true)
            else decryptLoopF data T fuel counts' (idx + 1) acc'
          else
            if allCollected data T counts then some (acc, false)
            else if idx + 1 > 10000 then some (acc, true)
            else decryptLoopF data T fuel counts (idx + 1) acc
      | none =>
          if allCollected data T counts then some (acc, false)
          else if idx + 1 > 10000 then some (acc, true)
          else decryptLoopF data T fuel counts (idx + 1) acc

/-- One full run of the reconstruction loop from the initial state
(`chunk_counts = {tz: 0 for tz in timezones}`, `timezone_idx = 0`). -/
def decryptRun (T : List String) (data : TzMap) : Option (List (List Char) × Bool) :=
  decryptLoopF data T 10002 (T.map (fun tz => (tz, 0))) 0 []

/-- `decrypt` over a given token list: run the loop, join the collected
chunks, base64-decode.  `none` models any exception escaping the Python
function (`binascii.Error` from `b64decode`; the impossible fuel exhaustion
also maps to `none`). -/
def decryptWith (T : List String) (data : TzMap) : Option (List Nat) :=
  match decryptRun T data with
  | none => none
  | some (chunks, _) => b64decode chunks.flatten

/-- Whether the reconstruction loop exited through the
`if timezone_idx > 10000: break` safety check. -/
def ceilingHitWith (T : List String) (data : TzMap) : Bool :=
  match decryptRun T data with
  | none => true
  | some (_, flag) => flag

/-- `common.py` `encrypt` (token list = `CHAR_TO_TIMEZONE.values()`). -/
def encrypt (sizes : Nat → Fin 14) (bs : List Nat) : TzMap :=
  encryptWith commonTimezones sizes bs

/-- `common.py` `decrypt`. -/
def decrypt (data : TzMap) : Option (List Nat) :=
  decryptWith commonTimezones data

/-! ## Substitution codec (`obfuscate` / `deobfuscate` in `common.py`) -/

/-- `obfuscate`: one token per character, unknown characters fall back to the
token of `' '`. -/
def obfuscate (message : List Char) : List String :=
  message.map (fun c =>
    match alookup CHAR_TO_TIMEZONE c with
    | some tz => tz
    | none => (alookup CHAR_TO_TIMEZONE ' ').getD "")

/-- `deobfuscate`: case-insensitive inverse lookup; tokens with no inverse
entry are skipped. -/
def deobfuscate (msg : List String) : List Char :=
  msg.filterMap (fun tz => alookup TIMEZONE_TO_CHAR (strUpper tz))

/-! ## Envelope model (`RequestMessage`, `BotMessage` in `common.py`) -/

/-- A JSON value appearing as a field of a published wire object. -/
inductive WireVal : Type
  | str (s : String)
  | list (l : List String)
  | obj (m : TzMap)
deriving DecidableEq

/-- `common.py` `RequestMessage`.  `datetime_leap` carries the JSON string
produced by `encrypt`; it is embedded by its parsed object (`TzMap`).
`RequestMessage.from_json` (`cls(**data)`) accepts any subset of the five
fields — in particular both payload slots may be set at once — and fails on
any other key; a message that fails to parse is `none` at the call sites. -/
structure RequestMessage : Type where
  local_datetime : Option String := some "2024-01-01T00:00:00"
  device_id : Option String := none
  datetime_leap : Option TzMap := none
  timezones : Option (List String) := none
  timezone : Option String := none
deriving DecidableEq

/-- `RequestMessage.to_json`: serialize only the non-`None` fields, in field
order. -/
def RequestMessage.to_json (r : RequestMessage) : List (String × WireVal) :=
  (match r.local_datetime with
   | some v => [("local_datetime", WireVal.str v)]
   | none => []) ++
  (match r.device_id with
   | some v => [("device_id", WireVal.str v)]
   | none => []) ++
  (match r.datetime_leap with
   | some v => [("datetime_leap", WireVal.obj v)]
   | none => []) ++
  (match r.timezones with
   | some v => [("timezones", WireVal.list v)]
   | none => []) ++
  (match r.timezone with
   | some v => [("timezone", WireVal.str v)]
   | none => [])

/-- `RequestMessage.get_user_action`: decode the command code from the
`timezone` field (case-insensitive), `None` when absent or unknown. -/
def RequestMessage.get_user_action (r : RequestMessage) : Option Nat :=
  match r.timezone with
  | none => none
  | some tz => alookup TIMEZONE_TO_ACTION (strUpper tz)

/-- `RequestMessage.set_user_action`: encode a command as a timezone (and
refresh the decorative datetime); raises (`none`) for an unknown action. -/
def RequestMessage.set_user_action (r : RequestMessage) (a : Nat) :
    Option RequestMessage :=
  match alookup COMMAND_TO_TIMEZONE a with
  | none => none
  | some tz =>
      some { r with timezone := some tz,
                    local_datetime := some "2024-01-01T00:00:00" }

/-- `RequestMessage.get_message`: long payload first (`decrypt`), else short
payload (`deobfuscate`), else `None`.  `Except.error` models an exception
escaping `decrypt` (bad base64 / non-ASCII bytes). -/
def RequestMessage.get_message (r : RequestMessage) :
    Except Unit (Option (List Char)) :=
  match r.datetime_leap with
  | some m =>
      match (decrypt m).bind asciiDecode with
      | some s => Except.ok (some s)
      | none => Except.error ()
  | none =>
      match r.timezones with
      | some tzl => Except.ok (some (deobfuscate tzl))
      | none => Except.ok none

/-- `RequestMessage.set_message`: clear both slots, then dispatch on length
(≤ 100 characters → substitution, else chunk distribution). -/
def RequestMessage.set_message (r : RequestMessage) (sizes : Nat → Fin 14)
    (message : Option (List Char)) : RequestMessage :=
  let r0 := { r with datetime_leap := none, timezones := (none : Option (List String)) }
  match message with
  | none => r0
  | some m =>
      if m.length ≤ 100 then { r0 with timezones := some (obfuscate m) }
      else { r0 with datetime_leap := some (encrypt sizes (m.map Char.toNat)) }

/-- `common.py` `BotMessage`. -/
structure BotMessage : Type where
  device_id : Option String
  message : Option (List Char)
deriving DecidableEq

/-- `BotMessage.from_request`: reject messages that carry a command code,
extract the hidden message, and require at least a bot ID or a (possibly
empty) message; `none` models the raised `UnknownDeviceError` (and any
exception escaping `get_message`, which the caller treats the same way). -/
def BotMessage.from_request (r : RequestMessage) : Option BotMessage :=
  if r.get_user_action ≠ none then none
  else
    match r.get_message with
    | Except.error _ => none
    | Except.ok msg =>
        if r.device_id = none ∧ msg = none then none
        else some ⟨r.device_id, msg⟩

/-- Whether an envelope's hidden message decodes without failure to a
non-empty string (the spec's "extract_hidden_message yields non-empty"). -/
def hiddenNonempty (r : RequestMessage) : Bool :=
  match r.get_message with
  | Except.ok (some m) => !m.isEmpty
  | _ => false

/-- Whether an envelope has a hidden-message slot whose decode succeeds
(possibly with an empty result). -/
def hiddenSlot (r : RequestMessage) : Bool :=
  match r.get_message with
  | Except.ok (some _) => true
  | _ => false

/-- Whether hidden-message extraction raises. -/
def msgFails (r : RequestMessage) : Bool :=
  match r.get_message with
  | Except.error _ => true
  | _ => false

/-! ## Bot (`bot.py`).  The bot ships its own copy of the "common" code with
its own constants; everything below is translated from `bot.py`. -/

/-- `bot.py` message-field constants. -/
def MSG_FIELD_TO_FAKE_LEGITIMATE : String := "local_datetime"

/-- `MSG_FIELD_BOT_ID = "local_datetime_leap"`. -/
def MSG_FIELD_BOT_ID : String := "local_datetime_leap"

/-- `MSG_FIELD_ENCRYPTED_MSG = "datetime_leap"`. -/
def MSG_FIELD_ENCRYPTED_MSG : String := "datetime_leap"

/-- `MSG_FIELD_TIMEZONES = "timezones"`. -/
def MSG_FIELD_TIMEZONES : String := "timezones"

/-- `MSG_FIELD_ACTION = "timezone"`. -/
def MSG_FIELD_ACTION : String := "timezone"

/-- `bot.py` `COMMAND_TO_TIMEZONE` (its own copy). -/
def botCOMMAND_TO_TIMEZONE : List (Nat × String) :=
  [(CMD_LIST_BOTS, "America/New_York"),
   (CMD_LIST_USERS, "America/Los_Angeles"),
   (CMD_LIST_DIR, "America/Chicago"),
   (CMD_GET_USER_ID, "Europe/London"),
   (CMD_DOWNLOAD_FILE, "Europe/Paris"),
   (CMD_EXECUTE_BINARY, "Europe/Berlin")]

/-- `bot.py` `TIMEZONE_TO_ACTION`. -/
def botTIMEZONE_TO_ACTION : List (String × Nat) :=
  (botCOMMAND_TO_TIMEZONE.map (fun p => (strUpper p.2, p.1))).reverse

/-- `bot.py` `CHAR_TO_TIMEZONE` (27 entries; keys are Python strings — note
the two-character key `", "`). -/
def botCHAR_TO_TIMEZONE : List (String × String) :=
  [("A", "America/Anchorage"),
   ("B", "Europe/Berlin"),
   ("C", "America/Chicago"),
   ("D", "Asia/Dubai"),
   ("E", "Europe/Edinburgh"),
   ("F", "America/Fortaleza"),
   ("G", "Europe/Gibraltar"),
   ("H", "Pacific/Honolulu"),
   ("I", "Asia/Istanbul"),
   ("J", "Asia/Jakarta"),
   ("K", "Europe/Kiev"),
   ("L", "Europe/London"),
   ("M", "America/Mexico_City"),
   ("N", "America/New_York"),
   ("O", "Europe/Oslo"),
   ("P", "Europe/Prague"),
   ("Q", "America/Quebec"),
   ("R", "Europe/Rome"),
   ("S", "Asia/Shanghai"),
   ("T", "Asia/Tokyo"),
   ("U", "Asia/Ulaanbaatar"),
   ("V", "Europe/Vienna"),
   ("W", "Europe/Warsaw"),
   ("X", "America/Cancun"),
   ("Y", "America/Yakutat"),
   ("Z", "Europe/Zurich"),
   (", ", "Africa/Johannesburg")]

/-- `bot.py` `list(CHAR_TO_TIMEZONE.values())` — 27 tokens. -/
def botTimezones : List String :=
  botCHAR_TO_TIMEZONE.map Prod.snd

/-- `bot.py` `do_very_strange_encryption` — same code as `encrypt` over the
bot's 27-token list. -/
def do_very_strange_encryption (sizes : Nat → Fin 14) (bs : List Nat) : TzMap :=
  encryptWith botTimezones sizes bs

/-- `bot.py` `do_very_strange_decryption` — same code as `decrypt` over the
bot's 27-token list. -/
def do_very_strange_decryption (data : TzMap) : Option (List Nat) :=
  decryptWith botTimezones data

/-- The fields of an incoming message that `bot.py`'s `decode_payload` reads
(`json.loads` tolerates arbitrary other keys, which cannot influence the
behaviour and are therefore not represented). -/
structure BotIncoming : Type where
  timezone : Option String := none
  datetime_leap : Option TzMap := none
deriving DecidableEq

/-- `bot.py` `decode_payload`: require a known action timezone, optionally
decrypt a path.  Any internal failure (unparseable payload = `none` input,
missing/unknown action, decryption error) is re-raised as
`Exception("Invalid payload.")`. -/
def decode_payload (input : Option BotIncoming) : Except String (Nat × Option String) :=
  match input with
  | none => Except.error "Invalid payload."
  | some d =>
      match d.timezone with
      | none => Except.error "Invalid payload."
      | some tzs =>
          match alookup botTIMEZONE_TO_ACTION (strUpper tzs) with
          | none => Except.error "Invalid payload."
          | some action =>
              match d.datetime_leap with
              | none => Except.ok (action, none)
              | some enc =>
                  match (do_very_strange_decryption enc).bind asciiDecode with
                  | some path => Except.ok (action, some (String.mk path))
                  | none => Except.error "Invalid payload."

/-- Result of a `subprocess.run` call: `(returncode, stdout, stderr)`, or the
message of a raised exception (`TimeoutExpired`, `FileNotFoundError`, …). -/
def SubprocessResult : Type := Except String (Nat × String × String)

/-- The external collaborators of `execute_action`: outcomes of the four
`subprocess.run` call sites, the filesystem (name → contents) behind
`open(...)`, the bot's `client_id` and the decorative `datetime.now()`
string. -/
structure ExecEnv : Type where
  wRes : SubprocessResult := Except.ok (0, "", "")
  lsRes : SubprocessResult := Except.ok (0, "", "")
  idRes : SubprocessResult := Except.ok (0, "", "")
  runRes : SubprocessResult := Except.ok (0, "", "")
  fs : String → Option String := fun _ => none
  client_id : String := "SyncDevice1"
  nowStr : String := "2024-01-01T00:00:00"

/-- The character→timezone encoding loop of the `CMD_LIST_USERS` branch:
uppercase the text, keep characters that are single-character table keys,
map `' '` to the `", "` entry, drop everything else. -/
def usersEncode (s : String) : List String :=
  (strUpper s).data.filterMap (fun ch =>
    match alookup botCHAR_TO_TIMEZONE (String.mk [ch]) with
    | some tz => some tz
    | none =>
        if ch = ' ' then some ((alookup botCHAR_TO_TIMEZONE ", ").getD "")
        else none)

/-- Python `if not path:` — `None` or the empty string. -/
def pathMissing (path : Option String) : Bool :=
  match path with
  | none => true
  | some p => p = ""

/-- The `try` body of `execute_action`: the response dict of each command
branch, or the message of the exception it raises.  The initial
`{local_datetime: now}` dict survives only for an action outside 1–6. -/
def executeActionCore (env : ExecEnv) (sizes : Nat → Fin 14) (action : Nat)
    (path : Option String) : Except String (List (String × WireVal)) :=
  if action = CMD_LIST_BOTS then
    Except.ok [(MSG_FIELD_BOT_ID, WireVal.str env.client_id)]
  else if action = CMD_LIST_USERS then
    match env.wRes with
    | Except.error e => Except.error e
    | Except.ok (rc, out, err) =>
        let output_text := if rc = 0 then out else "Error: " ++ err
        Except.ok [(MSG_FIELD_TIMEZONES, WireVal.list (usersEncode output_text))]
  else if action = CMD_LIST_DIR then
    if pathMissing path then Except.error "Path is missing."
    else
      match env.lsRes with
      | Except.error e => Except.error e
      | Except.ok (rc, out, err) =>
          if rc = 0 then
            Except.ok [(MSG_FIELD_ENCRYPTED_MSG,
              WireVal.obj (do_very_strange_encryption sizes (strBytes out)))]
          else
            Except.ok [(MSG_FIELD_ENCRYPTED_MSG,
              WireVal.obj (do_very_strange_encryption sizes
                (strBytes ("Error: " ++ err))))]
  else if action = CMD_GET_USER_ID then
    match env.idRes with
    | Except.error e => Except.error e
    | Except.ok (rc, out, err) =>
        if rc = 0 then
          Except.ok [(MSG_FIELD_ENCRYPTED_MSG,
            WireVal.obj (do_very_strange_encryption sizes (strBytes out)))]
        else
          Except.ok [(MSG_FIELD_ENCRYPTED_MSG,
            WireVal.obj (do_very_strange_encryption sizes
              (strBytes ("Error: " ++ err))))]
  else if action = CMD_DOWNLOAD_FILE then
    if pathMissing path then Except.error "Path is missing."
    else
      match env.fs "filename.txt" with
      | some content =>
          Except.ok [(MSG_FIELD_ENCRYPTED_MSG,
            WireVal.obj (do_very_strange_encryption sizes (strBytes content)))]
      | none =>
          Except.error "[Errno 2] No such file or directory: \x27filename.txt\x27"
  else if action = CMD_EXECUTE_BINARY then
    if pathMissing path then Except.error "Path is missing."
    else
      match env.runRes with
      | Except.error e => Except.error e
      | Except.ok (rc, out, err) =>
          Except.ok [(MSG_FIELD_ENCRYPTED_MSG,
            WireVal.obj (do_very_strange_encryption sizes
              (strBytes ("STDOUT:\n" ++ out ++ "\n\nSTDERR:\n" ++ err ++
                "\n\nReturn code: " ++ toString rc))))]
  else
    Except.ok [(MSG_FIELD_TO_FAKE_LEGITIMATE, WireVal.str env.nowStr)]

/-- The filenames `execute_action` opens for reading: the download branch
always opens the literal `'filename.txt'`, never the requested path. -/
def executeActionReads (action : Nat) (path : Option String) : List String :=
  if action = CMD_DOWNLOAD_FILE ∧ ¬pathMissing path then ["filename.txt"]
  else []

/-- `bot.py` `execute_action`: publish the branch's dict, or — when the body
raises — publish `{datetime_leap: encrypt(str(ex))}`. -/
def execute_action (env : ExecEnv) (sizes : Nat → Fin 14) (action : Nat)
    (path : Option String) : List (String × WireVal) :=
  match executeActionCore env sizes action path with
  | Except.ok d => d
  | Except.error e =>
      [(MSG_FIELD_ENCRYPTED_MSG,
        WireVal.obj (do_very_strange_encryption sizes (strBytes e)))]

/-- `bot.py` `on_message`: the list of dicts the handler publishes for one
delivery (`none` input = bytes that fail `json.loads`).  Decode failures are
answered by an encrypted error reply. -/
def bot_on_message (env : ExecEnv) (sizes : Nat → Fin 14)
    (input : Option BotIncoming) : List (List (String × WireVal)) :=
  match decode_payload input with
  | Except.error e =>
      [[(MSG_FIELD_ENCRYPTED_MSG,
         WireVal.obj (do_very_strange_encryption sizes (strBytes e)))]]
  | Except.ok (action, path) => [execute_action env sizes action path]

/-! ## Controller (`controller.py`) -/

/-- `controller.py` `on_message`: parse the payload, classify it as a bot
response, and append it to `bot_responses`; every failure path
(`UnicodeDecodeError`, `UnknownDeviceError`, any other exception) only
ignores the message.  The result is the new response list together with the
list of dicts the handler publishes — the handler contains no `publish`
call. -/
def controller_on_message (st : List BotMessage) (input : Option RequestMessage) :
    List BotMessage × List (List (String × WireVal)) :=
  match input with
  | none => (st, [])
  | some r =>
      match BotMessage.from_request r with
      | some bm => (st ++ [bm], [])
      | none => (st, [])

/-- `controller.py` `publish_action_request`: build the command envelope
(`set_user_action`, then `set_message`), clear `bot_responses`, publish.
Returns the cleared response list and the published envelope (`none` when
`set_user_action` raises for an unknown action, in which case nothing is
cleared or published). -/
def publish_action_request (_st : List BotMessage) (sizes : Nat → Fin 14)
    (user_action : Nat) (path : Option String) :
    Option (List BotMessage × RequestMessage) :=
  match RequestMessage.set_user_action {} user_action with
  | none => none
  | some r1 => some ([], r1.set_message sizes (path.map String.data))

/-- One observable event touching the controller's `bot_responses`
collection: a command issuance (which clears it) or the message-callback
append of a classified response. -/
inductive AggEvent : Type
  | issue : AggEvent
  | append (m : BotMessage) : AggEvent

/-- Effect of one event on `bot_responses` (each Python access holds
`response_lock`, so the events are serialized). -/
def aggStep (st : List BotMessage) : AggEvent → List BotMessage
  | AggEvent.issue => []
  | AggEvent.append m => st ++ [m]

/-- The `bot_responses` list after a serialized sequence of events;
`wait_for_responses` snapshots exactly this list. -/
def aggRun (st : List BotMessage) (evs : List AggEvent) : List BotMessage :=
  evs.foldl aggStep st

/-! ## Auxiliary definitions used by the verification -/

/-- The fragments that the round-robin distribution walk starting at index
`idx` assigns to the token `key` (the abstract view of one entry of
`distribute`). -/
def selects (T : List String) (key : String) : Nat → List (List Char) → List (List Char)
  | _, [] => []
  | idx, c :: rest =>
      (if T.getD (idx % T.length) "" = key then [c] else []) ++
        selects T key (idx + 1) rest

/-- The value of `chunk_counts[tz]` after the reconstruction loop over
`commonTimezones` (67 tokens) has consumed the first `i` fragments of a
round-robin distribution: fragment `j` bumps the token at position
`j % 67`. -/
def cntAt (i : Nat) (tz : String) : Nat :=
  i / 67 + (if commonTimezones.indexOf tz < i % 67 then 1 else 0)

/-- The whole `chunk_counts` dict in that state. -/
def countsAt (i : Nat) : List (String × Nat) :=
  commonTimezones.map (fun tz => (tz, cntAt i tz))

/-- The draw stream on which `random.randint(7, 20)` always returns 7. -/
def sizesSeven : Nat → Fin 14 := fun _ => 0

/-- The draw stream on which `random.randint(7, 20)` always returns 8. -/
def sizesEight : Nat → Fin 14 := fun _ => 1

/-- A plaintext long enough that, with 7-character fragments, encoding
produces 10003 fragments — two more than the decoder's iteration ceiling
admits (52512 bytes → 70016 base64 characters). -/
def bigText : List Nat := List.replicate 52512 97

/-- A plaintext whose 8-character-fragment encoding has 10002 fragments and
whose truncated decode is still valid base64 (60012 zero bytes → 80016 `'A'`
characters). -/
def zeroText : List Nat := List.replicate 60012 0

/-- The chunk-distribution payload that drives the decode loop into the
iteration ceiling. -/
def overrunData : TzMap := encrypt sizesEight zeroText

/-- The `str(ex)` of the `FileNotFoundError` raised by
`open('filename.txt', 'r')` when the file is absent. -/
def errnoMsg : String := "[Errno 2] No such file or directory: \x27filename.txt\x27"

/-- The five wire keys the controller's `RequestMessage.to_json` can emit. -/
def controllerWireKeys : List String :=
  ["local_datetime", "device_id", "datetime_leap", "timezones", "timezone"]

/-- The wire keys the bot's handlers can emit (its identity key is
`local_datetime_leap`, not `device_id`). -/
def botWireKeys : List String :=
  ["local_datetime", "local_datetime_leap", "datetime_leap", "timezones"]

/-! # Verification — basic facts about the token list and the dict model -/

theorem commonTimezones_length : commonTimezones.length = 67 := rfl

set_option maxRecDepth 8000 in
theorem ctz_getD_inj_fin : ∀ a b : Fin 67,
    commonTimezones.getD a.val "" = commonTimezones.getD b.val "" → a = b := by
  decide

theorem ctz_getD_inj {a b : Nat} (ha : a < 67) (hb : b < 67)
    (h : commonTimezones.getD a "" = commonTimezones.getD b "") : a = b := by
  have := ctz_getD_inj_fin ⟨a, ha⟩ ⟨b, hb⟩ h
  exact congrArg Fin.val this

set_option maxRecDepth 8000 in
theorem ctz_indexOf_getD : ∀ j : Fin 67,
    commonTimezones.indexOf (commonTimezones.getD j.val "") = j.val := by
  decide

theorem ctz_indexOf_getD_nat {r : Nat} (hr : r < 67) :
    commonTimezones.indexOf (commonTimezones.getD r "") = r :=
  ctz_indexOf_getD ⟨r, hr⟩

theorem alookup_map_self {β : Type} {T : List String} {g : String → β} {tz : String}
    (h : tz ∈ T) : alookup (T.map (fun t => (t, g t))) tz = some (g tz) := by
  induction T with
  | nil => cases h
  | cons a rest ih =>
      simp only [List.map_cons, alookup]
      by_cases ha : a = tz
      · subst ha; simp
      · rw [if_neg ha]
        refine ih ?_
        rcases List.mem_cons.mp h with h1 | h1
        · exact absurd h1.symm ha
        · exact h1

theorem cbump_map {T : List String} {g : String → Nat} {key : String} :
    cbump (T.map (fun t => (t, g t))) key =
      T.map (fun t => (t, if t = key then g t + 1 else g t)) := by
  unfold cbump
  rw [List.map_map]
  apply List.map_congr_left
  intro a _
  by_cases h : a = key <;> simp [h]

theorem countsAt_zero : countsAt 0 = commonTimezones.map (fun tz => (tz, 0)) := by
  unfold countsAt cntAt
  simp

theorem clookup_countsAt {i r : Nat} (hr : r < 67) :
    clookup (countsAt i) (commonTimezones.getD r "") =
      i / 67 + (if r < i % 67 then 1 else 0) := by
  have hrlen : r < commonTimezones.length := by rw [commonTimezones_length]; exact hr
  have hmem : commonTimezones.getD r "" ∈ commonTimezones := by
    rw [List.getD_eq_getElem _ _ hrlen]
    exact List.getElem_mem _
  unfold clookup countsAt
  rw [alookup_map_self hmem]
  simp only [Option.getD_some]
  unfold cntAt
  rw [ctz_indexOf_getD_nat hr]

theorem countsAt_step (i : Nat) :
    cbump (countsAt i) (commonTimezones.getD (i % 67) "") = countsAt (i + 1) := by
  unfold countsAt
  rw [cbump_map]
  apply List.map_congr_left
  intro tz htz
  obtain ⟨r, hrlen, hget⟩ := List.mem_iff_getElem.mp htz
  have hr : r < 67 := by rwa [commonTimezones_length] at hrlen
  have hgetD : commonTimezones.getD r "" = tz := by
    rw [List.getD_eq_getElem _ _ hrlen]; exact hget
  subst hgetD
  simp only [Prod.mk.injEq, true_and]
  unfold cntAt
  rw [ctz_indexOf_getD_nat hr]
  by_cases hc : commonTimezones.getD r "" = commonTimezones.getD (i % 67) ""
  · have hreq : r = i % 67 := ctz_getD_inj hr (Nat.mod_lt _ (by omega)) hc
    rw [if_pos hc]
    split_ifs <;> omega
  · rw [if_neg hc]
    have hrne : r ≠ i % 67 := fun he => hc (by rw [he])
    split_ifs <;> omega

/-! ## Characterization of the distribution (`distribute`) -/

theorem selects_getElem? (cs : List (List Char)) : ∀ (idx r q : Nat), r < 67 →
    (selects commonTimezones (commonTimezones.getD r "") idx cs)[q]? =
      cs[(r + 67 - idx % 67) % 67 + 67 * q]? := by
  induction cs with
  | nil => intro idx r q hr; simp [selects]
  | cons c rest ih =>
      intro idx r q hr
      simp only [selects, commonTimezones_length]
      by_cases hc : commonTimezones.getD (idx % 67) "" = commonTimezones.getD r ""
      · have hidx : idx % 67 = r := ctz_getD_inj (Nat.mod_lt _ (by omega)) hr hc
        rw [if_pos hc]
        cases q with
        | zero =>
            have h0 : (r + 67 - idx % 67) % 67 + 67 * 0 = 0 := by omega
            rw [h0]
            simp
        | succ q' =>
            simp only [List.cons_append, List.nil_append, List.getElem?_cons_succ]
            rw [ih (idx + 1) r q' hr]
            have harith : (r + 67 - idx % 67) % 67 + 67 * (q' + 1) =
                ((r + 67 - (idx + 1) % 67) % 67 + 67 * q') + 1 := by omega
            rw [harith, List.getElem?_cons_succ]
      · rw [if_neg hc]
        have hne : idx % 67 ≠ r := fun he => hc (by rw [he])
        simp only [List.nil_append]
        rw [ih (idx + 1) r q hr]
        have hd : 1 ≤ (r + 67 - idx % 67) % 67 := by omega
        have hd2 : (r + 67 - idx % 67) % 67 + 67 * q =
            ((r + 67 - idx % 67) % 67 + 67 * q - 1) + 1 := by omega
        rw [hd2, List.getElem?_cons_succ]
        congr 1
        omega

theorem selects_length_iff (cs : List (List Char)) {r : Nat} (hr : r < 67) (q : Nat) :
    (selects commonTimezones (commonTimezones.getD r "") 0 cs).length ≤ q ↔
      cs.length ≤ r + 67 * q := by
  have h := selects_getElem? cs 0 r q hr
  have hidx : (r + 67 - 0 % 67) % 67 + 67 * q = r + 67 * q := by omega
  rw [hidx] at h
  rw [← List.getElem?_eq_none_iff, ← List.getElem?_eq_none_iff, h]

theorem selects_getD (cs : List (List Char)) {r : Nat} (hr : r < 67) (q : Nat) :
    (selects commonTimezones (commonTimezones.getD r "") 0 cs).getD q [] =
      cs.getD (r + 67 * q) [] := by
  have h := selects_getElem? cs 0 r q hr
  have hidx : (r + 67 - 0 % 67) % 67 + 67 * q = r + 67 * q := by omega
  rw [hidx] at h
  set key := commonTimezones.getD r "" with hkey
  rw [List.getD_eq_getElem?_getD, List.getD_eq_getElem?_getD, h]

theorem alookup_dictAppend (m : TzMap) (k key : String) (v : List Char) :
    alookup (dictAppend m k v) key =
      if k = key then some ((alookup m key).getD [] ++ [v]) else alookup m key := by
  induction m with
  | nil =>
      simp only [dictAppend, alookup]
      by_cases h : k = key <;> simp [h]
  | cons p rest ih =>
      obtain ⟨k', vs⟩ := p
      simp only [dictAppend]
      by_cases h1 : k' = k
      · subst h1
        by_cases h2 : k' = key
        · subst h2
          simp [alookup]
        · simp [alookup, h2]
      · rw [if_neg h1]
        by_cases h2 : k' = key
        · subst h2
          have hk : k ≠ k' := fun he => h1 he.symm
          simp [alookup, hk]
        · simp only [alookup, if_neg h2]
          exact ih

theorem distributeGo_alookup (T : List String) (cs : List (List Char)) :
    ∀ (acc : TzMap) (idx : Nat) (key : String),
      alookup (distributeGo T acc idx cs) key =
        if alookup acc key = none ∧ selects T key idx cs = [] then none
        else some ((alookup acc key).getD [] ++ selects T key idx cs) := by
  induction cs with
  | nil =>
      intro acc idx key
      simp only [distributeGo, selects]
      cases h : alookup acc key <;> simp [h]
  | cons c rest ih =>
      intro acc idx key
      simp only [distributeGo, selects]
      rw [ih, alookup_dictAppend]
      set k0 := T.getD (idx % T.length) "" with hk0
      by_cases hk : k0 = key
      · subst hk
        simp [List.append_assoc]
      · simp [hk]

theorem distribute_alookup (T : List String) (chunks : List (List Char)) (key : String) :
    alookup (distribute T chunks) key =
      if selects T key 0 chunks = [] then none
      else some (selects T key 0 chunks) := by
  unfold distribute
  rw [distributeGo_alookup]
  simp [alookup]

theorem data_alookup (chunks : List (List Char)) {r : Nat} (hr : r < 67) :
    alookup (distribute commonTimezones chunks) (commonTimezones.getD r "") =
      if chunks.length ≤ r then none
      else some (selects commonTimezones (commonTimezones.getD r "") 0 chunks) := by
  rw [distribute_alookup]
  have h0 := selects_length_iff chunks hr 0
  simp only [Nat.mul_zero, Nat.add_zero] at h0
  by_cases hm : chunks.length ≤ r
  · have hnil : selects commonTimezones (commonTimezones.getD r "") 0 chunks = [] :=
      List.eq_nil_of_length_eq_zero (Nat.le_zero.mp (h0.mpr hm))
    rw [if_pos hnil, if_pos hm]
  · have hne : selects commonTimezones (commonTimezones.getD r "") 0 chunks ≠ [] := by
      intro he
      exact hm (h0.mp (by rw [he]; exact Nat.le_refl 0))
    rw [if_neg hne, if_neg hm]

theorem allCollected_at_end (chunks : List (List Char)) :
    allCollected (distribute commonTimezones chunks) commonTimezones
      (countsAt chunks.length) = true := by
  rw [allCollected, List.all_eq_true]
  intro tz htz
  obtain ⟨r, hrlen, hget⟩ := List.mem_iff_getElem.mp htz
  have hr : r < 67 := by rwa [commonTimezones_length] at hrlen
  have hgetD : commonTimezones.getD r "" = tz := by
    rw [List.getD_eq_getElem _ _ hrlen]; exact hget
  subst hgetD
  rw [data_alookup chunks hr]
  by_cases hm : chunks.length ≤ r
  · rw [if_pos hm]
  · rw [if_neg hm]
    have hK := clookup_countsAt (i := chunks.length) hr
    simp only [decide_eq_true_eq]
    rw [hK]
    by_cases hlt : r < chunks.length % 67
    · rw [if_pos hlt]
      have h1 : (selects commonTimezones (commonTimezones.getD r "") 0 chunks).length ≤
          chunks.length / 67 + 1 :=
        (selects_length_iff chunks hr _).mpr (by omega)
      have h2 : ¬ (selects commonTimezones (commonTimezones.getD r "") 0 chunks).length ≤
          chunks.length / 67 := by
        intro hh
        have := (selects_length_iff chunks hr _).mp hh
        omega
      omega
    · rw [if_neg hlt]
      have h1 : (selects commonTimezones (commonTimezones.getD r "") 0 chunks).length ≤
          chunks.length / 67 :=
        (selects_length_iff chunks hr _).mpr (by omega)
      have h2 : ¬ (selects commonTimezones (commonTimezones.getD r "") 0 chunks).length ≤
          chunks.length / 67 - 1 := by
        intro hh
        have := (selects_length_iff chunks hr _).mp hh
        omega
      omega

theorem allCollected_mid (chunks : List (List Char)) {i : Nat} (hi : i < chunks.length) :
    allCollected (distribute commonTimezones chunks) commonTimezones (countsAt i) = false := by
  rw [allCollected, List.all_eq_false]
  have hr : i % 67 < 67 := Nat.mod_lt _ (by omega)
  have hrlen : i % 67 < commonTimezones.length := by rw [commonTimezones_length]; exact hr
  refine ⟨commonTimezones.getD (i % 67) "", ?_, ?_⟩
  · rw [List.getD_eq_getElem _ _ hrlen]
    exact List.getElem_mem _
  · rw [data_alookup chunks hr]
    have hmr : ¬ chunks.length ≤ i % 67 := by
      have := Nat.mod_le i 67
      omega
    rw [if_neg hmr]
    have hK := clookup_countsAt (i := i) hr
    rw [if_neg (Nat.lt_irrefl _)] at hK
    simp only [decide_eq_true_eq]
    rw [hK]
    intro hh
    have h1 : (selects commonTimezones (commonTimezones.getD (i % 67) "") 0 chunks).length ≤
        i / 67 := Nat.le_of_eq hh.symm
    have := (selects_length_iff chunks hr _).mp h1
    omega

/-! ## The reconstruction loop replays a round-robin distribution -/

theorem decryptLoopF_consume (chunks : List (List Char)) (fuel i : Nat)
    (acc : List (List Char)) (hi : i < chunks.length) :
    decryptLoopF (distribute commonTimezones chunks) commonTimezones (fuel + 1)
      (countsAt i) i acc =
      if i + 1 > 10000 then some (acc ++ [chunks.getD i []], true)
      else decryptLoopF (distribute commonTimezones chunks) commonTimezones fuel
        (countsAt (i + 1)) (i + 1) (acc ++ [chunks.getD i []]) := by
  have hr : i % 67 < 67 := Nat.mod_lt _ (by omega)
  have hlen : commonTimezones.length = 67 := rfl
  have hmr : ¬ chunks.length ≤ i % 67 := by
    have := Nat.mod_le i 67
    omega
  have hlook : alookup (distribute commonTimezones chunks)
      (commonTimezones.getD (i % 67) "") =
      some (selects commonTimezones (commonTimezones.getD (i % 67) "") 0 chunks) := by
    rw [data_alookup chunks hr, if_neg hmr]
  have hcl : clookup (countsAt i) (commonTimezones.getD (i % 67) "") = i / 67 := by
    rw [clookup_countsAt hr, if_neg (Nat.lt_irrefl _)]
    omega
  have hguard : i / 67 <
      (selects commonTimezones (commonTimezones.getD (i % 67) "") 0 chunks).length := by
    rcases Nat.lt_or_ge (i / 67)
      (selects commonTimezones (commonTimezones.getD (i % 67) "") 0 chunks).length with h | h
    · exact h
    · exfalso
      have := (selects_length_iff chunks hr (i / 67)).mp h
      omega
  have hval : (selects commonTimezones (commonTimezones.getD (i % 67) "") 0 chunks).getD
      (i / 67) [] = chunks.getD i [] := by
    rw [selects_getD chunks hr]
    congr 1
    omega
  simp only [decryptLoopF, hlen, hlook, hcl, hval, if_pos hguard, countsAt_step]

theorem decryptLoopF_finish (chunks : List (List Char)) (fuel : Nat)
    (acc : List (List Char)) :
    decryptLoopF (distribute commonTimezones chunks) commonTimezones (fuel + 1)
      (countsAt chunks.length) chunks.length acc = some (acc, false) := by
  have hr : chunks.length % 67 < 67 := Nat.mod_lt _ (by omega)
  have hlen : commonTimezones.length = 67 := rfl
  have hAC := allCollected_at_end chunks
  by_cases hm : chunks.length ≤ chunks.length % 67
  · have hlook : alookup (distribute commonTimezones chunks)
        (commonTimezones.getD (chunks.length % 67) "") = none := by
      rw [data_alookup chunks hr, if_pos hm]
    simp only [decryptLoopF, hlen, hlook, hAC, if_true]
  · have hlook : alookup (distribute commonTimezones chunks)
        (commonTimezones.getD (chunks.length % 67) "") =
        some (selects commonTimezones
          (commonTimezones.getD (chunks.length % 67) "") 0 chunks) := by
      rw [data_alookup chunks hr, if_neg hm]
    have hcl : clookup (countsAt chunks.length)
        (commonTimezones.getD (chunks.length % 67) "") = chunks.length / 67 := by
      rw [clookup_countsAt hr, if_neg (Nat.lt_irrefl _)]
      omega
    have hguard : ¬ chunks.length / 67 <
        (selects commonTimezones
          (commonTimezones.getD (chunks.length % 67) "") 0 chunks).length := by
      have h1 : (selects commonTimezones
          (commonTimezones.getD (chunks.length % 67) "") 0 chunks).length ≤
          chunks.length / 67 :=
        (selects_length_iff chunks hr _).mpr (by omega)
      omega
    simp only [decryptLoopF, hlen, hlook, hcl, if_neg hguard, hAC, if_true]

theorem decryptLoopF_spec (chunks : List (List Char)) :
    ∀ (fuel i : Nat) (acc : List (List Char)),
      i ≤ chunks.length → i ≤ 10000 → 10002 ≤ fuel + i →
      decryptLoopF (distribute commonTimezones chunks) commonTimezones fuel
        (countsAt i) i acc =
        some (acc ++ (chunks.take (min chunks.length 10001)).drop i,
          decide (10001 ≤ chunks.length)) := by
  intro fuel
  induction fuel with
  | zero =>
      intro i acc h1 h2 h3
      omega
  | succ fuel ih =>
      intro i acc him hi10 hfuel
      by_cases hiend : i = chunks.length
      · subst hiend
        rw [decryptLoopF_finish chunks fuel acc]
        have h1 : min chunks.length 10001 = chunks.length := by omega
        have h2 : ¬ (10001 ≤ chunks.length) := by omega
        rw [h1, List.take_length, List.drop_length]
        simp [h2]
      · have hi : i < chunks.length := Nat.lt_of_le_of_ne him hiend
        rw [decryptLoopF_consume chunks fuel i acc hi]
        by_cases hlast : i + 1 > 10000
        · rw [if_pos hlast]
          have hieq : i = 10000 := by omega
          subst hieq
          have hm : min chunks.length 10001 = 10001 := by omega
          rw [hm]
          have hlen1 : (chunks.take 10001).length = 10001 := by
            rw [List.length_take]
            omega
          have hdall : (chunks.take 10001).drop 10001 = [] := by
            have h := List.drop_length (chunks.take 10001)
            rwa [hlen1] at h
          have hstep : (chunks.take 10001).drop 10000 =
              chunks.getD 10000 [] :: (chunks.take 10001).drop 10001 := by
            rw [List.drop_eq_getElem_cons (by omega)]
            congr 1
            rw [List.getElem_take]
            exact (List.getD_eq_getElem _ _ hi).symm
          rw [hstep, hdall]
          have hge : 10001 ≤ chunks.length := by omega
          simp [hge]
        · rw [if_neg hlast]
          rw [ih (i + 1) (acc ++ [chunks.getD i []]) (by omega) (by omega) (by omega)]
          have hstep : (chunks.take (min chunks.length 10001)).drop i =
              chunks.getD i [] :: (chunks.take (min chunks.length 10001)).drop (i + 1) := by
            rw [List.drop_eq_getElem_cons (by rw [List.length_take]; omega)]
            congr 1
            rw [List.getElem_take]
            exact (List.getD_eq_getElem _ _ hi).symm
          rw [hstep]
          simp [List.append_assoc]

theorem decryptRun_distribute (chunks : List (List Char)) :
    decryptRun commonTimezones (distribute commonTimezones chunks) =
      some (chunks.take (min chunks.length 10001),
        decide (10001 ≤ chunks.length)) := by
  unfold decryptRun
  have h := decryptLoopF_spec chunks 10002 0 [] (by omega) (by omega) (by omega)
  rw [countsAt_zero] at h
  simpa using h

/-! ## Chunk splitting -/

theorem splitChunksF_flatten (sizes : Nat → Fin 14) :
    ∀ (fuel : Nat) (s : List Char) (k : Nat), s.length ≤ fuel →
      (splitChunksF fuel sizes k s).flatten = s := by
  intro fuel
  induction fuel with
  | zero =>
      intro s k h
      obtain rfl : s = [] := List.eq_nil_of_length_eq_zero (Nat.le_zero.mp h)
      rfl
  | succ fuel ih =>
      intro s k h
      by_cases hs : s = []
      · subst hs; simp [splitChunksF]
      · have hlen : 1 ≤ s.length := by
          cases s with
          | nil => exact absurd rfl hs
          | cons a l => simp
        simp only [splitChunksF, if_neg hs, List.flatten_cons]
        rw [ih (s.drop (7 + (sizes k).val)) (k + 1) (by rw [List.length_drop]; omega)]
        exact List.take_append_drop _ s

theorem splitChunksF_length_seven :
    ∀ (fuel : Nat) (s : List Char) (k : Nat), s.length ≤ fuel →
      (splitChunksF fuel sizesSeven k s).length = (s.length + 6) / 7 := by
  intro fuel
  induction fuel with
  | zero =>
      intro s k h
      obtain rfl : s = [] := List.eq_nil_of_length_eq_zero (Nat.le_zero.mp h)
      rfl
  | succ fuel ih =>
      intro s k h
      by_cases hs : s = []
      · subst hs; simp [splitChunksF]
      · have hlen : 1 ≤ s.length := by
          cases s with
          | nil => exact absurd rfl hs
          | cons a l => simp
        simp only [splitChunksF, if_neg hs, List.length_cons]
        have h0 : (7 + (sizesSeven k).val) = 7 := rfl
        rw [h0, ih (s.drop 7) (k + 1) (by rw [List.length_drop]; omega),
          List.length_drop]
        omega

theorem splitChunksF_take_flatten_seven :
    ∀ (fuel : Nat) (s : List Char) (k q : Nat), s.length ≤ fuel →
      ((splitChunksF fuel sizesSeven k s).take q).flatten = s.take (7 * q) := by
  intro fuel
  induction fuel with
  | zero =>
      intro s k q h
      obtain rfl : s = [] := List.eq_nil_of_length_eq_zero (Nat.le_zero.mp h)
      simp [splitChunksF]
  | succ fuel ih =>
      intro s k q h
      by_cases hs : s = []
      · subst hs; simp [splitChunksF]
      · have hlen : 1 ≤ s.length := by
          cases s with
          | nil => exact absurd rfl hs
          | cons a l => simp
        cases q with
        | zero => simp
        | succ q' =>
            simp only [splitChunksF, if_neg hs, List.take_succ_cons, List.flatten_cons]
            have h0 : (7 + (sizesSeven k).val) = 7 := rfl
            rw [h0, ih (s.drop 7) (k + 1) q' (by rw [List.length_drop]; omega)]
            have h7 : 7 * (q' + 1) = 7 + 7 * q' := by ring
            rw [h7, List.take_add]

theorem splitChunksF_rep8 :
    ∀ (n fuel k : Nat), 8 * n ≤ fuel →
      splitChunksF fuel sizesEight k (List.replicate (8 * n) 'A') =
        List.replicate n (List.replicate 8 'A') := by
  intro n
  induction n with
  | zero =>
      intro fuel k _
      cases fuel <;> simp [splitChunksF]
  | succ n ih =>
      intro fuel k h
      obtain ⟨fuel', rfl⟩ : ∃ f, fuel = f + 1 := ⟨fuel - 1, by omega⟩
      have hne : List.replicate (8 * (n + 1)) 'A' ≠ ([] : List Char) := by
        intro he
        have := congrArg List.length he
        simp at this
      simp only [splitChunksF, if_neg hne]
      have h8 : (7 + (sizesEight k).val) = 8 := rfl
      rw [h8]
      have htake : (List.replicate (8 * (n + 1)) 'A').take 8 =
          List.replicate 8 'A' := by
        rw [List.take_replicate]
        congr 1
        omega
      have hdrop : (List.replicate (8 * (n + 1)) 'A').drop 8 =
          List.replicate (8 * n) 'A' := by
        have hd : 8 * (n + 1) - 8 = 8 * n := by omega
        rw [List.drop_replicate, hd]
      rw [htake, hdrop, ih fuel' (k + 1) (by omega)]
      exact (List.replicate_succ _ _).symm

theorem flatten_replicate_rep {α : Type} (x : α) (c : Nat) :
    ∀ n : Nat, (List.replicate n (List.replicate c x)).flatten =
      List.replicate (c * n) x := by
  intro n
  induction n with
  | zero => simp
  | succ n ih =>
      rw [List.replicate_succ, List.flatten_cons, ih]
      rw [show c * (n + 1) = c + c * n by ring, List.replicate_add]

/-! ## Base64 inversion -/

set_option maxRecDepth 8000 in
theorem b64index_getD_fin : ∀ i : Fin 64,
    b64index (b64chars.getD i.val 'A') = some i.val := by
  decide

theorem b64index_getD_lt {x : Nat} (h : x < 64) :
    b64index (b64chars.getD x 'A') = some x :=
  b64index_getD_fin ⟨x, h⟩

set_option maxRecDepth 8000 in
theorem b64getD_ne_pad_fin : ∀ i : Fin 64, b64chars.getD i.val 'A' ≠ '=' := by
  decide

theorem b64getD_ne_pad {x : Nat} (h : x < 64) : b64chars.getD x 'A' ≠ '=' :=
  b64getD_ne_pad_fin ⟨x, h⟩

theorem b64index_getD_isSome (x : Nat) :
    (b64index (b64chars.getD x 'A')).isSome = true := by
  by_cases h : x < 64
  · rw [b64index_getD_lt h]; rfl
  · rw [List.getD_eq_default _ _ (by simp [b64chars]; omega)]
    decide

theorem b64getD_valid (x : Nat) :
    ((b64index (b64chars.getD x 'A')).isSome || b64chars.getD x 'A' = '=') = true := by
  rw [b64index_getD_isSome x]
  rfl

theorem b64encode_all_valid :
    ∀ (N : Nat) (bs : List Nat), bs.length ≤ N →
      ∀ c ∈ b64encode bs, ((b64index c).isSome || c = '=') = true := by
  intro N
  induction N with
  | zero =>
      intro bs h c hc
      obtain rfl : bs = [] := List.eq_nil_of_length_eq_zero (Nat.le_zero.mp h)
      simp [b64encode] at hc
  | succ N ih =>
      intro bs h c hc
      rcases bs with _ | ⟨a, _ | ⟨b, _ | ⟨d, rest⟩⟩⟩
      · simp [b64encode] at hc
      · simp only [b64encode, List.mem_cons, List.not_mem_nil, or_false] at hc
        rcases hc with rfl | rfl | rfl | rfl
        · exact b64getD_valid _
        · exact b64getD_valid _
        · rfl
        · rfl
      · simp only [b64encode, List.mem_cons, List.not_mem_nil, or_false] at hc
        rcases hc with rfl | rfl | rfl | rfl
        · exact b64getD_valid _
        · exact b64getD_valid _
        · exact b64getD_valid _
        · rfl
      · simp only [b64encode, List.mem_cons] at hc
        rcases hc with rfl | rfl | rfl | rfl | hc
        · exact b64getD_valid _
        · exact b64getD_valid _
        · exact b64getD_valid _
        · exact b64getD_valid _
        · exact ih rest (by simp at h; omega) c hc

theorem decodeGroups_b64encode :
    ∀ (N : Nat) (bs : List Nat), bs.length ≤ N → (∀ b ∈ bs, b < 256) →
      decodeGroups (b64encode bs) = some bs := by
  intro N
  induction N with
  | zero =>
      intro bs h _
      obtain rfl : bs = [] := List.eq_nil_of_length_eq_zero (Nat.le_zero.mp h)
      rfl
  | succ N ih =>
      intro bs h hb
      rcases bs with _ | ⟨a, _ | ⟨b, _ | ⟨d, rest⟩⟩⟩
      · rfl
      · have ha : a < 256 := hb a (by simp)
        have h1 : a * 16 / 64 < 64 := by omega
        have h2 : a * 16 % 64 < 64 := by omega
        have he : a * 16 / 64 * 4 + a * 16 % 64 / 16 = a := by omega
        simp only [b64encode, decodeGroups, b64index_getD_lt h1, b64index_getD_lt h2]
        simp [he]
      · have ha : a < 256 := hb a (by simp)
        have hb2 : b < 256 := hb b (by simp)
        have h1 : (a * 1024 + b * 4) / 4096 < 64 := by omega
        have h2 : (a * 1024 + b * 4) / 64 % 64 < 64 := by omega
        have h3 : (a * 1024 + b * 4) % 64 < 64 := by omega
        have he1 : (a * 1024 + b * 4) / 4096 * 4 + (a * 1024 + b * 4) / 64 % 64 / 16 = a := by
          omega
        have he2 : (a * 1024 + b * 4) / 64 % 64 % 16 * 16 + (a * 1024 + b * 4) % 64 / 4 = b := by
          omega
        simp only [b64encode, decodeGroups, b64index_getD_lt h1, b64index_getD_lt h2,
          b64index_getD_lt h3, if_neg (b64getD_ne_pad h3)]
        simp [he1, he2]
      · have ha : a < 256 := hb a (by simp)
        have hb2 : b < 256 := hb b (by simp)
        have hd : d < 256 := hb d (by simp)
        have h1 : (a * 65536 + b * 256 + d) / 262144 < 64 := by omega
        have h2 : (a * 65536 + b * 256 + d) / 4096 % 64 < 64 := by omega
        have h3 : (a * 65536 + b * 256 + d) / 64 % 64 < 64 := by omega
        have h4 : (a * 65536 + b * 256 + d) % 64 < 64 := by omega
        simp only [b64encode, decodeGroups, b64index_getD_lt h1, b64index_getD_lt h2,
          b64index_getD_lt h3, b64index_getD_lt h4, if_neg (b64getD_ne_pad h3),
          if_neg (b64getD_ne_pad h4)]
        rw [ih rest (by simp at h; omega) (fun x hx => hb x (by simp [hx]))]
        have he1 : (a * 65536 + b * 256 + d) / 262144 * 4 +
            (a * 65536 + b * 256 + d) / 4096 % 64 / 16 = a := by omega
        have he2 : (a * 65536 + b * 256 + d) / 4096 % 64 % 16 * 16 +
            (a * 65536 + b * 256 + d) / 64 % 64 / 4 = b := by omega
        have he3 : (a * 65536 + b * 256 + d) / 64 % 64 % 4 * 64 +
            (a * 65536 + b * 256 + d) % 64 = d := by omega
        simp [he1, he2, he3]

theorem b64decode_b64encode (bs : List Nat) (hb : ∀ b ∈ bs, b < 256) :
    b64decode (b64encode bs) = some bs := by
  unfold b64decode
  rw [List.filter_eq_self.mpr (b64encode_all_valid bs.length bs (le_refl _))]
  exact decodeGroups_b64encode bs.length bs (le_refl _) hb

theorem b64encode_length :
    ∀ (N : Nat) (bs : List Nat), bs.length ≤ N →
      (b64encode bs).length = 4 * ((bs.length + 2) / 3) := by
  intro N
  induction N with
  | zero =>
      intro bs h
      obtain rfl : bs = [] := List.eq_nil_of_length_eq_zero (Nat.le_zero.mp h)
      rfl
  | succ N ih =>
      intro bs h
      rcases bs with _ | ⟨a, _ | ⟨b, _ | ⟨d, rest⟩⟩⟩
      · rfl
      · simp [b64encode]
      · simp [b64encode]
      · simp only [b64encode, List.length_cons]
        rw [ih rest (by simp at h; omega)]
        omega

theorem b64encode_no_pad :
    ∀ (N : Nat) (bs : List Nat), bs.length ≤ N → bs.length % 3 = 0 →
      ∀ c ∈ b64encode bs, (b64index c).isSome = true := by
  intro N
  induction N with
  | zero =>
      intro bs h _ c hc
      obtain rfl : bs = [] := List.eq_nil_of_length_eq_zero (Nat.le_zero.mp h)
      simp [b64encode] at hc
  | succ N ih =>
      intro bs h hmod c hc
      rcases bs with _ | ⟨a, _ | ⟨b, _ | ⟨d, rest⟩⟩⟩
      · simp [b64encode] at hc
      · simp at hmod
      · simp at hmod
      · simp only [b64encode, List.mem_cons] at hc
        rcases hc with rfl | rfl | rfl | rfl | hc
        · exact b64index_getD_isSome _
        · exact b64index_getD_isSome _
        · exact b64index_getD_isSome _
        · exact b64index_getD_isSome _
        · exact ih rest (by simp at h; omega) (by simp at hmod ⊢; omega) c hc

theorem decodeGroups_none_mod :
    ∀ (N : Nat) (cs : List Char), cs.length ≤ N →
      (∀ c ∈ cs, (b64index c).isSome = true) → cs.length % 4 = 3 →
      decodeGroups cs = none := by
  intro N
  induction N with
  | zero =>
      intro cs h _ hmod
      obtain rfl : cs = [] := List.eq_nil_of_length_eq_zero (Nat.le_zero.mp h)
      simp at hmod
  | succ N ih =>
      intro cs h hv hmod
      rcases cs with _ | ⟨c1, _ | ⟨c2, _ | ⟨c3, _ | ⟨c4, rest⟩⟩⟩⟩
      · simp at hmod
      · simp at hmod
      · simp at hmod
      · rfl
      · obtain ⟨i1, hi1⟩ := Option.isSome_iff_exists.mp (hv c1 (by simp))
        obtain ⟨i2, hi2⟩ := Option.isSome_iff_exists.mp (hv c2 (by simp))
        obtain ⟨i3, hi3⟩ := Option.isSome_iff_exists.mp (hv c3 (by simp))
        obtain ⟨i4, hi4⟩ := Option.isSome_iff_exists.mp (hv c4 (by simp))
        have hc3 : c3 ≠ '=' := by
          intro he
          rw [he] at hi3
          simp [b64index, b64chars] at hi3
        have hc4 : c4 ≠ '=' := by
          intro he
          rw [he] at hi4
          simp [b64index, b64chars] at hi4
        simp only [decodeGroups, hi1, hi2, hi3, hi4, if_neg hc3, if_neg hc4]
        rw [ih rest (by simp at h; omega) (fun x hx => hv x (by simp [hx]))
          (by simp at hmod ⊢; omega)]
        rfl

theorem b64encode_rep0 : ∀ n : Nat,
    b64encode (List.replicate (3 * n) 0) = List.replicate (4 * n) 'A' := by
  intro n
  induction n with
  | zero => rfl
  | succ n ih =>
      have h3 : 3 * (n + 1) = (3 * n) + 1 + 1 + 1 := by ring
      have h4 : 4 * (n + 1) = (4 * n) + 1 + 1 + 1 + 1 := by ring
      rw [h3, h4]
      simp only [List.replicate_succ]
      rw [show List.replicate (3 * n) (0 : Nat) =
        List.replicate (3 * n) (0 : Nat) from rfl]
      simp only [b64encode]
      rw [ih]
      rfl

theorem decodeGroups_repA : ∀ n : Nat,
    decodeGroups (List.replicate (4 * n) 'A') = some (List.replicate (3 * n) 0) := by
  intro n
  induction n with
  | zero => rfl
  | succ n ih =>
      have h4 : 4 * (n + 1) = (4 * n) + 1 + 1 + 1 + 1 := by ring
      have h3 : 3 * (n + 1) = (3 * n) + 1 + 1 + 1 := by ring
      rw [h4, h3]
      simp only [List.replicate_succ]
      simp only [decodeGroups]
      have hA : b64index 'A' = some 0 := by decide
      have hAne : ('A' : Char) ≠ '=' := by decide
      simp only [hA, if_neg hAne]
      rw [ih]
      rfl

theorem b64decode_repA (n : Nat) :
    b64decode (List.replicate (4 * n) 'A') = some (List.replicate (3 * n) 0) := by
  unfold b64decode
  have hf : ∀ c ∈ List.replicate (4 * n) 'A',
      ((b64index c).isSome || c = '=') = true := by
    intro c hc
    rw [List.eq_of_mem_replicate hc]
    decide
  rw [List.filter_eq_self.mpr hf]
  exact decodeGroups_repA n

/-! ## Termination of the reconstruction loop within the ceiling -/

theorem decryptLoopF_total (data : TzMap) (T : List String) :
    ∀ (fuel idx : Nat) (counts : List (String × Nat)) (acc : List (List Char)),
      idx ≤ 10000 → 10002 ≤ fuel + idx →
      (decryptLoopF data T fuel counts idx acc).isSome = true := by
  intro fuel
  induction fuel with
  | zero =>
      intro idx counts acc h1 h2
      omega
  | succ fuel ih =>
      intro idx counts acc h1 h2
      cases hl : alookup data (T.getD (idx % T.length) "") with
      | none =>
          simp only [decryptLoopF, hl]
          by_cases hac : allCollected data T counts
          · simp [hac]
          · simp only [if_neg hac]
            by_cases hidx : idx + 1 > 10000
            · simp [hidx]
            · rw [if_neg hidx]
              exact ih (idx + 1) counts acc (by omega) (by omega)
      | some frags =>
          simp only [decryptLoopF, hl]
          by_cases hg : clookup counts (T.getD (idx % T.length) "") < frags.length
          · simp only [if_pos hg]
            by_cases hidx : idx + 1 > 10000
            · simp [hidx]
            · rw [if_neg hidx]
              exact ih (idx + 1) _ _ (by omega) (by omega)
          · simp only [if_neg hg]
            by_cases hac : allCollected data T counts
            · simp [hac]
            · simp only [if_neg hac]
              by_cases hidx : idx + 1 > 10000
              · simp [hidx]
              · rw [if_neg hidx]
                exact ih (idx + 1) counts acc (by omega) (by omega)

theorem decryptRun_total (T : List String) (data : TzMap) :
    (decryptRun T data).isSome = true :=
  decryptLoopF_total data T 10002 0 _ [] (by omega) (by omega)

/-! ## Claim theorems -/

theorem alookup_mem {α β : Type} [DecidableEq α] {m : List (α × β)} {k : α} {v : β}
    (h : alookup m k = some v) : (k, v) ∈ m := by
  induction m with
  | nil => simp [alookup] at h
  | cons p rest ih =>
      obtain ⟨k', v'⟩ := p
      simp only [alookup] at h
      by_cases hk : k' = k
      · rw [if_pos hk] at h
        subst hk
        injection h with h
        subst h
        simp
      · rw [if_neg hk] at h
        exact List.mem_cons_of_mem _ (ih h)

set_option maxRecDepth 8000 in
theorem char_table_roundtrip : ∀ p ∈ CHAR_TO_TIMEZONE,
    alookup TIMEZONE_TO_CHAR (strUpper p.2) = some p.1 := by
  decide

theorem deobfuscate_obfuscate (s : List Char)
    (hcov : ∀ c ∈ s, (alookup CHAR_TO_TIMEZONE c).isSome = true) :
    deobfuscate (obfuscate s) = s := by
  induction s with
  | nil => rfl
  | cons c rest ih =>
      obtain ⟨tz, htz⟩ := Option.isSome_iff_exists.mp (hcov c (by simp))
      have hround := char_table_roundtrip (c, tz) (alookup_mem htz)
      simp only [obfuscate, List.map_cons, deobfuscate, List.filterMap_cons, htz]
      simp only at hround
      rw [hround]
      simp only [Option.some.injEq]
      exact congrArg (c :: ·) (ih (fun x hx => hcov x (by simp [hx])))

/-- C5: for every string of length at most 100 all of whose characters appear
in the character-to-token table, substitution decode of substitution encode
returns the string exactly, the decode-side token lookup being
case-insensitive (it matches on the upper-cased token). -/
theorem c5_substitution_roundtrip (s : List Char) (hlen : s.length ≤ 100)
    (hcov : ∀ c ∈ s, (alookup CHAR_TO_TIMEZONE c).isSome = true) :
    deobfuscate (obfuscate s) = s :=
  deobfuscate_obfuscate s hcov

/-- Witness for C5 at the concrete string "aB3 ,z./~". -/
theorem c5_substitution_roundtrip_witness :
    ['a', 'B', '3', ' ', ',', 'z', '.', '/', '~'].length ≤ 100 ∧
    (∀ c ∈ ['a', 'B', '3', ' ', ',', 'z', '.', '/', '~'],
      (alookup CHAR_TO_TIMEZONE c).isSome = true) ∧
    deobfuscate (obfuscate ['a', 'B', '3', ' ', ',', 'z', '.', '/', '~']) =
      ['a', 'B', '3', ' ', ',', 'z', '.', '/', '~'] :=
  ⟨by decide, by decide,
    c5_substitution_roundtrip _ (by decide) (by decide)⟩

/-- C9: issuing a command first clears the response collection (`clear`
precedes the publish in `publish_action_request`), so a collect with no
intervening appends snapshots the empty list, and the responses appended
after the command are snapshotted in exactly their append order. -/
theorem c9_aggregator_window :
    (∀ (st : List BotMessage) (ms : List BotMessage),
      aggRun st (AggEvent.issue :: ms.map AggEvent.append) = ms) ∧
    (∀ (st : List BotMessage) (sizes : Nat → Fin 14) (a : Nat) (p : Option String)
      (res : List BotMessage × RequestMessage),
      publish_action_request st sizes a p = some res → res.1 = []) := by
  constructor
  · intro st ms
    unfold aggRun
    rw [List.foldl_cons]
    have h : ∀ (l : List BotMessage) (pre : List BotMessage),
        (l.map AggEvent.append).foldl aggStep pre = pre ++ l := by
      intro l
      induction l with
      | nil => intro pre; simp
      | cons m rest ihl =>
          intro pre
          simp only [List.map_cons, List.foldl_cons, aggStep]
          rw [ihl]
          simp
    rw [h ms (aggStep st AggEvent.issue)]
    rfl
  · intro st sizes a p res h
    unfold publish_action_request at h
    cases hs : RequestMessage.set_user_action {} a with
    | none => rw [hs] at h; cases h
    | some r1 =>
        rw [hs] at h
        injection h with h
        subst h
        rfl

/-- C10: when both hidden-payload fields are set — a state `from_json` admits,
since it enforces no mutual exclusion — `get_message` decodes the long
payload (`decrypt` of `datetime_leap`) and ignores the short payload. -/
theorem c10_long_payload_precedence (r : RequestMessage) (m : TzMap)
    (h : r.datetime_leap = some m) :
    r.get_message = (match (decrypt m).bind asciiDecode with
      | some s => Except.ok (some s)
      | none => Except.error ()) ∧
    r.get_message = RequestMessage.get_message { r with timezones := none } := by
  constructor
  · unfold RequestMessage.get_message
    rw [h]
  · unfold RequestMessage.get_message
    simp only [h]

/-- Witness for C10: an envelope carrying both payload slots at once. -/
theorem c10_long_payload_precedence_witness :
    ({ datetime_leap := some (encrypt sizesSeven [104, 105]),
       timezones := some (obfuscate ['b', 'y', 'e']) } : RequestMessage).get_message =
      (match (decrypt (encrypt sizesSeven [104, 105])).bind asciiDecode with
       | some s => Except.ok (some s)
       | none => Except.error ()) ∧
    ({ datetime_leap := some (encrypt sizesSeven [104, 105]),
       timezones := some (obfuscate ['b', 'y', 'e']) } : RequestMessage).get_message =
      RequestMessage.get_message
        { ({ datetime_leap := some (encrypt sizesSeven [104, 105]),
             timezones := some (obfuscate ['b', 'y', 'e']) } : RequestMessage) with
          timezones := none } := by
  exact c10_long_payload_precedence
    { datetime_leap := some (encrypt sizesSeven [104, 105]),
      timezones := some (obfuscate ['b', 'y', 'e']) }
    (encrypt sizesSeven [104, 105]) rfl

/-- C6 counterexample: the envelope `{timezones: []}` has no action marker,
no identity, and a hidden message that decodes to the empty string, yet
`BotMessage.from_request` classifies it as a Response (its `message` is the
non-`None` empty string), so the claimed characterization fails here. -/
theorem c6_counterexample :
    RequestMessage.get_user_action { timezones := some ([] : List String) } = none ∧
    (BotMessage.from_request { timezones := some ([] : List String) }).isSome = true ∧
    ({ timezones := some ([] : List String) } : RequestMessage).device_id = none ∧
    hiddenNonempty { timezones := some ([] : List String) } = false := by
  refine ⟨rfl, by decide, rfl, by decide⟩

/-- C6 amended: for an envelope with no resolvable action marker, the role
resolver classifies it as a Response iff hidden-message extraction does not
raise and (the identity field is set or a hidden-message slot is present —
even one that decodes to the empty string). -/
theorem c6_amended (r : RequestMessage) (h : r.get_user_action = none) :
    (BotMessage.from_request r).isSome = true ↔
      (msgFails r = false ∧ (r.device_id ≠ none ∨ hiddenSlot r = true)) := by
  unfold BotMessage.from_request msgFails hiddenSlot
  rw [h]
  simp only [ne_eq, not_true_eq_false, if_false]
  cases hm : r.get_message with
  | error e => simp
  | ok msg =>
      cases msg with
      | none =>
          by_cases hd : r.device_id = none
          · simp [hd]
          · simp [hd]
      | some m =>
          by_cases hd : r.device_id = none
          · simp [hd]
          · simp [hd]

/-- Witness for C6 (amended) at an envelope carrying only an identity. -/
theorem c6_amended_witness :
    (BotMessage.from_request ({ device_id := some "bot1" } : RequestMessage)).isSome = true ↔
      (msgFails { device_id := some "bot1" } = false ∧
        (({ device_id := some "bot1" } : RequestMessage).device_id ≠ none ∨
          hiddenSlot { device_id := some "bot1" } = true)) := by
  exact c6_amended { device_id := some "bot1" } rfl

/-- C2 counterexample: a payload that fails to parse (Unrecognized) makes the
agent publish an encrypted error reply — an observable side effect on the
bus. -/
theorem c2_counterexample :
    bot_on_message {} sizesSeven none ≠ [] := by
  decide

/-- C2 amended: the controller's message handler never publishes anything,
but the agent answers every delivery that fails to parse as a command with
an encrypted error reply instead of staying silent. -/
theorem c2_amended :
    (∀ (st : List BotMessage) (input : Option RequestMessage),
      (controller_on_message st input).2 = []) ∧
    (∀ (env : ExecEnv) (sizes : Nat → Fin 14) (input : Option BotIncoming) (e : String),
      decode_payload input = Except.error e →
      bot_on_message env sizes input =
        [[(MSG_FIELD_ENCRYPTED_MSG,
           WireVal.obj (do_very_strange_encryption sizes (strBytes e)))]]) := by
  constructor
  · intro st input
    cases input with
    | none => rfl
    | some r =>
        unfold controller_on_message
        cases h : BotMessage.from_request r <;> simp [h]
  · intro env sizes input e he
    unfold bot_on_message
    rw [he]

/-- Witness for C2 (amended) at the unparseable payload. -/
theorem c2_amended_witness :
    (controller_on_message [] none).2 = [] ∧
    decode_payload (none : Option BotIncoming) = Except.error "Invalid payload." ∧
    bot_on_message {} sizesSeven none =
      [[(MSG_FIELD_ENCRYPTED_MSG,
         WireVal.obj (do_very_strange_encryption sizesSeven
           (strBytes "Invalid payload.")))]] :=
  ⟨c2_amended.1 [] none, rfl, c2_amended.2 {} sizesSeven none "Invalid payload." rfl⟩

/-- C3 counterexample: the two character→token tables are different
constants (67 entries in `common.py` against 27 in `bot.py`), and the two
chunk-distribution codecs are not equivalent: the agent-side decode of the
controller-side encode of "aaa" returns the empty string. -/
theorem c3_counterexample :
    CHAR_TO_TIMEZONE.map (fun p => (String.singleton p.1, p.2)) ≠ botCHAR_TO_TIMEZONE ∧
    CHAR_TO_TIMEZONE.length = 67 ∧
    botCHAR_TO_TIMEZONE.length = 27 ∧
    do_very_strange_decryption (encrypt sizesSeven [97, 97, 97]) = some [] ∧
    ([] : List Nat) ≠ [97, 97, 97] := by
  refine ⟨by decide, rfl, rfl, by decide, by decide⟩

/-- C3 amended: the action→token tables are the same constant on both sides
and every single-character row of the agent's character table agrees with
the controller's, but the character tables themselves are different
constants (67 vs 27 entries, plus the agent's two-character key ", "), and
the codecs are not equivalent: the agent-side chunk decode of a
controller-side chunk encode can return a different string. -/
theorem c3_amended :
    botCOMMAND_TO_TIMEZONE = COMMAND_TO_TIMEZONE ∧
    (∀ p ∈ botCHAR_TO_TIMEZONE,
      p.1 = ", " ∨ p ∈ CHAR_TO_TIMEZONE.map (fun q => (String.singleton q.1, q.2))) ∧
    CHAR_TO_TIMEZONE.map (fun p => (String.singleton p.1, p.2)) ≠ botCHAR_TO_TIMEZONE ∧
    do_very_strange_decryption (encrypt sizesSeven [97, 97, 97]) = some [] ∧
    ([] : List Nat) ≠ [97, 97, 97] := by
  refine ⟨rfl, by decide, by decide, by decide, by decide⟩

/-- C4 counterexample: the agent's list-bots reply is keyed by
`local_datetime_leap` (`MSG_FIELD_BOT_ID`), which is not among the
controller's five wire keys — in particular not `device_id`. -/
theorem c4_counterexample :
    (execute_action {} sizesSeven CMD_LIST_BOTS none).map Prod.fst =
      ["local_datetime_leap"] ∧
    "local_datetime_leap" ∉ controllerWireKeys := by
  refine ⟨rfl, by decide⟩

theorem to_json_keys (r : RequestMessage) :
    (r.to_json.map Prod.fst) ⊆ controllerWireKeys ∧
    (("device_id" ∈ r.to_json.map Prod.fst) ↔ r.device_id ≠ none) ∧
    (("datetime_leap" ∈ r.to_json.map Prod.fst) ↔ r.datetime_leap ≠ none) ∧
    (("timezones" ∈ r.to_json.map Prod.fst) ↔ r.timezones ≠ none) ∧
    (("timezone" ∈ r.to_json.map Prod.fst) ↔ r.timezone ≠ none) := by
  obtain ⟨ld, did, dl, tzs, tz⟩ := r
  unfold RequestMessage.to_json
  cases ld <;> cases did <;> cases dl <;> cases tzs <;> cases tz <;>
    simp [controllerWireKeys, List.subset_def]

theorem executeActionCore_ok_keys (env : ExecEnv) (sizes : Nat → Fin 14)
    (action : Nat) (path : Option String) (d : List (String × WireVal))
    (h : executeActionCore env sizes action path = Except.ok d) :
    (d.map Prod.fst) ⊆ botWireKeys := by
  unfold executeActionCore at h
  split_ifs at h <;>
    (try split at h) <;>
    (try split_ifs at h) <;>
    (first
      | (injection h with h; subst h;
         simp [botWireKeys, MSG_FIELD_BOT_ID, MSG_FIELD_ENCRYPTED_MSG,
           MSG_FIELD_TIMEZONES, MSG_FIELD_TO_FAKE_LEGITIMATE, List.subset_def])
      | injection h)

theorem execute_action_keys (env : ExecEnv) (sizes : Nat → Fin 14) (action : Nat)
    (path : Option String) :
    ((execute_action env sizes action path).map Prod.fst) ⊆ botWireKeys := by
  unfold execute_action
  cases hc : executeActionCore env sizes action path with
  | error e =>
      simp [botWireKeys, MSG_FIELD_ENCRYPTED_MSG, List.subset_def]
  | ok d =>
      exact executeActionCore_ok_keys env sizes action path d hc

/-- C4 amended: every published envelope is a flat object carrying only its
non-null fields; the controller's keys are drawn from
`{local_datetime, device_id, datetime_leap, timezones, timezone}`, while the
agent's keys are drawn from
`{local_datetime, local_datetime_leap, datetime_leap, timezones}` — its
identity key is `local_datetime_leap`, not `device_id`. -/
theorem c4_amended :
    (∀ r : RequestMessage, (r.to_json.map Prod.fst) ⊆ controllerWireKeys ∧
      (("device_id" ∈ r.to_json.map Prod.fst) ↔ r.device_id ≠ none) ∧
      (("datetime_leap" ∈ r.to_json.map Prod.fst) ↔ r.datetime_leap ≠ none) ∧
      (("timezones" ∈ r.to_json.map Prod.fst) ↔ r.timezones ≠ none) ∧
      (("timezone" ∈ r.to_json.map Prod.fst) ↔ r.timezone ≠ none)) ∧
    (∀ (env : ExecEnv) (sizes : Nat → Fin 14) (input : Option BotIncoming)
      (d : List (String × WireVal)), d ∈ bot_on_message env sizes input →
      (d.map Prod.fst) ⊆ botWireKeys) := by
  constructor
  · exact to_json_keys
  · intro env sizes input d hd
    unfold bot_on_message at hd
    cases hdp : decode_payload input with
    | error e =>
        rw [hdp] at hd
        simp only [List.mem_singleton] at hd
        subst hd
        simp [botWireKeys, MSG_FIELD_ENCRYPTED_MSG, List.subset_def]
    | ok ap =>
        obtain ⟨action, path⟩ := ap
        rw [hdp] at hd
        simp only [List.mem_singleton] at hd
        subst hd
        exact execute_action_keys env sizes action path

/-- C8: issuing fetch-file for a missing `/etc/hostname` — the agent opens
the literal file `filename.txt` instead of the requested path, and its reply
decodes to the `FileNotFoundError` text for `filename.txt` (a human-readable
message, not a stack trace) which never mentions the requested path. -/
theorem c8_download_ignores_path :
    executeActionReads CMD_DOWNLOAD_FILE (some "/etc/hostname") = ["filename.txt"] ∧
    "/etc/hostname" ∉ executeActionReads CMD_DOWNLOAD_FILE (some "/etc/hostname") ∧
    execute_action { fs := fun _ => none } sizesSeven CMD_DOWNLOAD_FILE
      (some "/etc/hostname") =
      [(MSG_FIELD_ENCRYPTED_MSG,
        WireVal.obj (do_very_strange_encryption sizesSeven (strBytes errnoMsg)))] ∧
    (do_very_strange_decryption
      (do_very_strange_encryption sizesSeven (strBytes errnoMsg))).bind asciiDecode =
      some errnoMsg.data ∧
    ("filename.txt".data <:+: errnoMsg.data) ∧
    ¬ ("/etc/hostname".data <:+: errnoMsg.data) := by
  refine ⟨by decide, by decide, rfl, by decide, by decide, by decide⟩

theorem encryptWith_eq (T : List String) (sizes : Nat → Fin 14) (bs : List Nat) :
    encryptWith T sizes bs =
      distribute T (splitChunksF (b64encode bs).length sizes 0 (b64encode bs)) := by
  simp only [encryptWith]

theorem decryptWith_eq_of_run (T : List String) (data : TzMap)
    (l : List (List Char)) (b : Bool) (h : decryptRun T data = some (l, b)) :
    decryptWith T data = b64decode l.flatten := by
  unfold decryptWith
  rw [h]

theorem ceilingHitWith_eq_of_run (T : List String) (data : TzMap)
    (l : List (List Char)) (b : Bool) (h : decryptRun T data = some (l, b)) :
    ceilingHitWith T data = b := by
  unfold ceilingHitWith
  rw [h]

theorem decrypt_encrypt_general (sizes : Nat → Fin 14) (bs : List Nat) :
    decrypt (encrypt sizes bs) =
      b64decode ((splitChunksF (b64encode bs).length sizes 0
        (b64encode bs)).take
        (min (splitChunksF (b64encode bs).length sizes 0 (b64encode bs)).length
          10001)).flatten := by
  simp only [decrypt, decryptWith, encrypt, encryptWith, decryptRun_distribute]

/-- C1 amended: chunk-distribution decode inverts encode for every input and
every choice of the random fragment lengths, provided the encoding produced
at most 10001 fragments (guaranteed up to ~52.5 KB of input); beyond that the
decoder's iteration ceiling truncates the replay. -/
theorem c1_roundtrip_bounded (sizes : Nat → Fin 14) (bs : List Nat)
    (hb : ∀ b ∈ bs, b < 256)
    (hn : (splitChunksF (b64encode bs).length sizes 0 (b64encode bs)).length ≤ 10001) :
    decrypt (encrypt sizes bs) = some bs := by
  simp only [decrypt, decryptWith, encrypt, encryptWith, decryptRun_distribute]
  have hmin : min (splitChunksF (b64encode bs).length sizes 0 (b64encode bs)).length
      10001 = (splitChunksF (b64encode bs).length sizes 0 (b64encode bs)).length := by
    omega
  rw [hmin, List.take_length,
    splitChunksF_flatten sizes (b64encode bs).length (b64encode bs) 0 (le_refl _)]
  exact b64decode_b64encode bs hb

/-- Witness for C1 (amended) at the two-byte input "hi". -/
theorem c1_roundtrip_bounded_witness :
    (∀ b ∈ [104, 105], b < 256) ∧
    (splitChunksF (b64encode [104, 105]).length sizesSeven 0
      (b64encode [104, 105])).length ≤ 10001 ∧
    decrypt (encrypt sizesSeven [104, 105]) = some [104, 105] :=
  ⟨by decide, by decide,
    c1_roundtrip_bounded sizesSeven [104, 105] (by decide) (by decide)⟩

/-- C1 counterexample: for the 52512-byte input (all `'a'`) and fragment
lengths drawn constantly as 7 — a possible run of `random.randint(7, 20)` —
decoding the encoding does not return the input: the loop's iteration
ceiling truncates the replay to 10001 of the 10003 fragments and the
truncated base64 string (70007 characters, length ≢ 0 mod 4) fails to
decode. -/
theorem c1_counterexample :
    decrypt (encrypt sizesSeven bigText) ≠ some bigText := by
  have hblen : bigText.length = 52512 := by
    unfold bigText
    rw [List.length_replicate]
  have helen : (b64encode bigText).length = 70016 := by
    rw [b64encode_length bigText.length bigText (le_refl _), hblen]
  have hchunks : (splitChunksF (b64encode bigText).length sizesSeven 0
      (b64encode bigText)).length = 10003 := by
    rw [splitChunksF_length_seven (b64encode bigText).length (b64encode bigText) 0
      (le_refl _), helen]
  have hnone : b64decode ((b64encode bigText).take (7 * 10001)) = none := by
    unfold b64decode
    have hmem : ∀ c ∈ (b64encode bigText).take (7 * 10001),
        (b64index c).isSome = true := by
      intro c hc
      exact b64encode_no_pad bigText.length bigText (le_refl _)
        (by rw [hblen]) c (List.mem_of_mem_take hc)
    rw [List.filter_eq_self.mpr (fun c hc => by rw [hmem c hc]; rfl)]
    refine decodeGroups_none_mod ((b64encode bigText).take (7 * 10001)).length _
      (le_refl _) hmem ?_
    rw [List.length_take, helen]
    omega
  rw [decrypt_encrypt_general sizesSeven bigText]
  rw [show min (splitChunksF (b64encode bigText).length sizesSeven 0
      (b64encode bigText)).length 10001 = 10001 from by omega]
  rw [splitChunksF_take_flatten_seven (b64encode bigText).length (b64encode bigText)
    0 10001 (le_refl _)]
  rw [hnone]
  intro h
  exact Option.noConfusion h

theorem overrun_chunks :
    splitChunksF (b64encode zeroText).length sizesEight 0 (b64encode zeroText) =
      List.replicate 10002 (List.replicate 8 'A') := by
  have h2 : zeroText = List.replicate (3 * 20004) 0 := by
    unfold zeroText
    congr 1
  have h1 : b64encode zeroText = List.replicate 80016 'A' := by
    rw [h2, b64encode_rep0]
  rw [h1, List.length_replicate]
  have h3 := splitChunksF_rep8 10002 80016 0 (by norm_num)
  rw [show (80016 : Nat) = 8 * 10002 by norm_num]
  exact h3

theorem overrun_run :
    decryptRun commonTimezones overrunData =
      some (List.replicate 10001 (List.replicate 8 'A'), true) := by
  unfold overrunData encrypt
  rw [encryptWith_eq, overrun_chunks, decryptRun_distribute]
  rw [List.length_replicate, List.take_replicate]
  rw [show (10002 ⊓ 10001 ⊓ 10002 : Nat) = 10001 from by omega]
  rfl

theorem overrun_decrypt :
    decrypt overrunData = some (List.replicate 60006 0) := by
  unfold decrypt
  rw [decryptWith_eq_of_run commonTimezones overrunData _ _ overrun_run]
  rw [flatten_replicate_rep]
  rw [show (8 * 10001 : Nat) = 4 * 20002 from by norm_num]
  rw [b64decode_repA]

/-- C7 counterexample: a payload on which the decode loop exits through the
`timezone_idx > 10000` safety check yet `decrypt` neither signals an error
nor returns the full content — it silently returns the bytes of the first
10001 of the 10002 fragments. -/
theorem c7_counterexample :
    ceilingHitWith commonTimezones overrunData = true ∧
    decrypt overrunData ≠ none ∧
    decrypt overrunData ≠ some zeroText := by
  refine ⟨?_, ?_, ?_⟩
  · exact ceilingHitWith_eq_of_run commonTimezones overrunData _ _ overrun_run
  · rw [overrun_decrypt]
    exact fun h => Option.noConfusion h
  · rw [overrun_decrypt]
    intro h
    injection h with h
    have hl := congrArg List.length h
    rw [show zeroText = List.replicate 60012 0 from rfl] at hl
    rw [List.length_replicate, List.length_replicate] at hl
    omega

/-- C7 amended: chunk-distribution decode terminates on every input within
the hard ceiling of 10001 token-visits (the loop never exhausts its fuel);
but when the ceiling is exceeded it breaks out and returns the base64 decode
of the truncated fragment sequence — a silently truncated result (or a
base64 failure) rather than a distinct format error. -/
theorem c7_amended :
    (∀ data : TzMap, (decryptRun commonTimezones data).isSome = true) ∧
    ceilingHitWith commonTimezones overrunData = true ∧
    decrypt overrunData = some (List.replicate 60006 0) ∧
    List.replicate 60006 (0 : Nat) ≠ zeroText := by
  refine ⟨fun data => decryptRun_total commonTimezones data, ?_, overrun_decrypt, ?_⟩
  · exact ceilingHitWith_eq_of_run commonTimezones overrunData _ _ overrun_run
  · intro h
    have hl := congrArg List.length h
    rw [show zeroText = List.replicate 60012 0 from rfl] at hl
    rw [List.length_replicate, List.length_replicate] at hl
    omega

/-- Witness for C4 (amended): the empty-default controller envelope and the
agent's error reply to an unparseable payload. -/
theorem c4_amended_witness :
    ((RequestMessage.to_json {}).map Prod.fst ⊆ controllerWireKeys) ∧
    (([(MSG_FIELD_ENCRYPTED_MSG,
        WireVal.obj (do_very_strange_encryption sizesSeven
          (strBytes "Invalid payload.")))].map Prod.fst) ⊆ botWireKeys) :=
  ⟨(c4_amended.1 {}).1,
    c4_amended.2 {} sizesSeven none
      [(MSG_FIELD_ENCRYPTED_MSG,
        WireVal.obj (do_very_strange_encryption sizesSeven
          (strBytes "Invalid payload.")))] (by decide)⟩

/-- Witness for C9 at a two-response window following a list-bots command. -/
theorem c9_aggregator_window_witness :
    aggRun [BotMessage.mk (some "old") none]
      (AggEvent.issue :: ([BotMessage.mk (some "b1") none,
        BotMessage.mk (some "b2") none].map AggEvent.append)) =
      [BotMessage.mk (some "b1") none, BotMessage.mk (some "b2") none] ∧
    (([], ({ local_datetime := some "2024-01-01T00:00:00",
             timezone := some "America/New_York" } : RequestMessage)) :
      List BotMessage × RequestMessage).1 = ([] : List BotMessage) :=
  ⟨c9_aggregator_window.1 [BotMessage.mk (some "old") none]
      [BotMessage.mk (some "b1") none, BotMessage.mk (some "b2") none],
    c9_aggregator_window.2 [BotMessage.mk (some "old") none] sizesSeven
      CMD_LIST_BOTS none
      ([], { local_datetime := some "2024-01-01T00:00:00",
             timezone := some "America/New_York" }) (by decide)⟩
